import Mathlib

/-
  Verification development for the AltDragon repository.

  Shallow embedding of:
  - src/core/server/plugin-manager.ts  (plugin registry and event bus)
  - src/core/server/hot-reload.ts      (runtime-side reload logic)
  - scripts/hot-reload.js              (file watcher, debounce, reload trigger)
  - scripts/build.js                   (resource assembler)

  Side effects (logging, hook invocation) are modelled as event traces;
  the JS `Map` and `Set` are modelled as association lists / duplicate-free
  lists with the same insertion-order semantics.
-/

namespace AltDragon

/-! ## Plugin manager data model (src/core/server/plugin-manager.ts) -/

/-- A lifecycle hook or event handler.  `label` identifies the closure in
traces; `throws` models whether invoking it raises an exception. -/
structure Hook where
  label : String
  throws : Bool
deriving DecidableEq

/-- PluginLifecycle from src/core/shared/interfaces.ts: optional
onLoad / onUnload hooks. -/
structure PluginLifecycle where
  onLoad : Option Hook
  onUnload : Option Hook
deriving DecidableEq

/-- PluginMetadata from src/core/shared/interfaces.ts. -/
structure PluginMetadata where
  id : String
  name : String
  version : String
  author : String
  description : String
  dependencies : List String
deriving DecidableEq

/-- The record stored in the `plugins` map for each registered plugin. -/
structure PluginRecord where
  metadata : PluginMetadata
  lifecycle : PluginLifecycle
deriving DecidableEq

/-- The `plugins` Map, as an insertion-ordered association list. -/
abbrev Registry := List (String × PluginRecord)

/-- Map.has -/
def hasKey : Registry → String → Bool
  | [], _ => false
  | e :: rest, k => e.1 == k || hasKey rest k

/-- Map.get -/
def getKey : Registry → String → Option PluginRecord
  | [], _ => none
  | e :: rest, k => if e.1 == k then some e.2 else getKey rest k

/-- Map.set: replace in place when the key exists, else append. -/
def setKey : Registry → String → PluginRecord → Registry
  | [], k, v => [(k, v)]
  | e :: rest, k, v => if e.1 == k then (k, v) :: rest else e :: setKey rest k v

/-- Observable events produced by the plugin manager. -/
inductive PMEvent where
  | logMsg (msg : String)
  | errorLog (msg : String)
  | unloadRun (label : String)
  | loadRun (label : String)
  | handlerRun (label : String)
deriving DecidableEq

/-- The try/catch around `existingPlugin.lifecycle.onUnload()`:
the hook runs, and an exception is logged, not propagated. -/
def runUnloadHook (pluginId : String) : Option Hook → List PMEvent
  | none => []
  | some h =>
    PMEvent.unloadRun h.label ::
      (if h.throws then
        [PMEvent.errorLog ("Error in onUnload hook for " ++ pluginId)]
      else [])

/-- The try/catch around `lifecycle.onLoad()`. -/
def runLoadHook (pluginId : String) : Option Hook → List PMEvent
  | none => []
  | some h =>
    PMEvent.loadRun h.label ::
      (if h.throws then
        [PMEvent.errorLog ("Error in onLoad hook for " ++ pluginId)]
      else [])

/-- The `if (plugins.has(metadata.id))` block of registerPlugin: log and run
the existing record's unload hook. -/
def unloadEvents (plugins : Registry) (id : String) : List PMEvent :=
  if hasKey plugins id then
    PMEvent.logMsg ("Plugin " ++ id ++ " is already registered, updating") ::
      (match getKey plugins id with
       | some existing => runUnloadHook id existing.lifecycle.onUnload
       | none => [])
  else []

/-- registerPlugin (plugin-manager.ts lines 217-274), returning the updated
registry and the trace of observable events.  The dependency loop aborts at
the first dependency that is not in the registry. -/
def registerPlugin (plugins : Registry) (metadata : PluginMetadata)
    (lifecycle : PluginLifecycle) : Registry × List PMEvent :=
  let ev0 :=
    PMEvent.logMsg
      ("Registering plugin: " ++ metadata.name ++ " (" ++ metadata.id ++ ")")
  let evU := unloadEvents plugins metadata.id
  match metadata.dependencies.find? (fun d => !(hasKey plugins d)) with
  | some d =>
    (plugins,
      ev0 :: evU ++
        [PMEvent.errorLog
          ("Plugin " ++ metadata.id ++ " depends on " ++ d ++
            ", but it is not loaded")])
  | none =>
    let updated :=
      setKey plugins metadata.id { metadata := metadata, lifecycle := lifecycle }
    (updated,
      ev0 :: evU ++ runLoadHook metadata.id lifecycle.onLoad ++
        [PMEvent.logMsg ("Plugin " ++ metadata.id ++ " registered successfully")])

/-- getPlugin: pure lookup. -/
def getPlugin (plugins : Registry) (pluginId : String) : Option PluginRecord :=
  getKey plugins pluginId

/-- isPluginLoaded: pure membership test. -/
def isPluginLoaded (plugins : Registry) (pluginId : String) : Bool :=
  hasKey plugins pluginId

/-! ## Event bus (coreAPI.on / coreAPI.emit) -/

/-- The `eventHandlers` Map, insertion ordered. -/
abbrev HandlerTable := List (String × List Hook)

/-- Map.get on the handler table. -/
def getHandlers : HandlerTable → String → Option (List Hook)
  | [], _ => none
  | e :: rest, n => if e.1 == n then some e.2 else getHandlers rest n

/-- coreAPI.on: create the entry when absent, then push the handler. -/
def onEvent : HandlerTable → String → Hook → HandlerTable
  | [], n, h => [(n, [h])]
  | e :: rest, n, h =>
    if e.1 == n then (e.1, e.2 ++ [h]) :: rest else e :: onEvent rest n h

/-- coreAPI.emit: run each registered handler in order inside try/catch. -/
def emit (tbl : HandlerTable) (eventName : String) : List PMEvent :=
  (((getHandlers tbl eventName).getD []).map (fun h =>
    PMEvent.handlerRun h.label ::
      (if h.throws then
        [PMEvent.errorLog ("Error in event handler for " ++ eventName)]
      else []))).flatten

/-! ## Basic registry lemmas -/

theorem getKey_setKey_self (r : Registry) (k : String) (v : PluginRecord) :
    getKey (setKey r k v) k = some v := by
  induction r with
  | nil => simp [setKey, getKey]
  | cons e rest ih =>
    by_cases h : e.1 = k
    · simp [setKey, getKey, h]
    · simp [setKey, getKey, h, ih]

theorem hasKey_setKey_self (r : Registry) (k : String) (v : PluginRecord) :
    hasKey (setKey r k v) k = true := by
  induction r with
  | nil => simp [setKey, hasKey]
  | cons e rest ih =>
    by_cases h : e.1 = k
    · simp [setKey, hasKey, h]
    · simp [setKey, hasKey, h, ih]

theorem hasKey_setKey_other (r : Registry) (k k' : String) (v : PluginRecord)
    (hne : k' ≠ k) : hasKey (setKey r k v) k' = hasKey r k' := by
  induction r with
  | nil => simp [setKey, hasKey, Ne.symm hne]
  | cons e rest ih =>
    by_cases h : e.1 = k
    · simp [setKey, hasKey, h, Ne.symm hne]
    · simp [setKey, hasKey, h, ih]

theorem getKey_some_hasKey (r : Registry) (k : String) (v : PluginRecord)
    (h : getKey r k = some v) : hasKey r k = true := by
  induction r with
  | nil => simp [getKey] at h
  | cons e rest ih =>
    by_cases he : e.1 = k
    · simp [hasKey, he]
    · simp only [getKey, show (e.1 == k) = false by simp [he],
        Bool.false_eq_true, if_false] at h
      simp [hasKey, he, ih h]

theorem hasKey_false_getKey_none (r : Registry) (k : String)
    (h : hasKey r k = false) : getKey r k = none := by
  induction r with
  | nil => simp [getKey]
  | cons e rest ih =>
    simp [hasKey] at h
    simp [getKey, h.1, ih h.2]

theorem find?_missing_dep {plugins : Registry} {deps : List String}
    (h : ∃ d ∈ deps, hasKey plugins d = false) :
    ∃ d, deps.find? (fun d => !(hasKey plugins d)) = some d := by
  obtain ⟨d, hd, hmiss⟩ := h
  have hsome : (deps.find? (fun d => !(hasKey plugins d))).isSome := by
    rw [List.find?_isSome]
    exact ⟨d, hd, by simp [hmiss]⟩
  exact Option.isSome_iff_exists.mp hsome

theorem unloadRun_not_mem_runLoadHook (id : String) (o : Option Hook)
    (s : String) : PMEvent.unloadRun s ∉ runLoadHook id o := by
  cases o with
  | none => simp [runLoadHook]
  | some h => cases hT : h.throws <;> simp [runLoadHook, hT]

/-- C1: registerPlugin with a fresh id and a missing dependency leaves the
registry unchanged, creates no entry for the id, and never invokes any
onLoad hook. -/
theorem C1_registerPlugin_missing_dep_aborts
    (plugins : Registry) (m : PluginMetadata) (lc : PluginLifecycle)
    (hid : hasKey plugins m.id = false)
    (hdep : ∃ d ∈ m.dependencies, hasKey plugins d = false) :
    (registerPlugin plugins m lc).1 = plugins ∧
    getKey (registerPlugin plugins m lc).1 m.id = none ∧
    ∀ l, PMEvent.loadRun l ∉ (registerPlugin plugins m lc).2 := by
  obtain ⟨d, hfind⟩ := find?_missing_dep hdep
  refine ⟨?_, ?_, ?_⟩
  · simp [registerPlugin, hfind]
  · simp [registerPlugin, hfind, hasKey_false_getKey_none plugins m.id hid]
  · intro l
    simp [registerPlugin, hfind, unloadEvents, hid]

/-- Witness for C1 at a concrete input: empty registry, plugin `example`
depending on the absent `core`. -/
theorem C1_witness :
    hasKey ([] : Registry)
        (PluginMetadata.mk "example" "Example" "1.0.0" "A" "" ["core"]).id
      = false ∧
    (∃ d ∈ (PluginMetadata.mk "example" "Example" "1.0.0" "A" "" ["core"]).dependencies,
      hasKey ([] : Registry) d = false) ∧
    ((registerPlugin [] (PluginMetadata.mk "example" "Example" "1.0.0" "A" "" ["core"])
        (PluginLifecycle.mk (some (Hook.mk "exLoad" false)) none)).1 = [] ∧
      getKey (registerPlugin [] (PluginMetadata.mk "example" "Example" "1.0.0" "A" "" ["core"])
        (PluginLifecycle.mk (some (Hook.mk "exLoad" false)) none)).1
        (PluginMetadata.mk "example" "Example" "1.0.0" "A" "" ["core"]).id = none ∧
      ∀ l, PMEvent.loadRun l ∉
        (registerPlugin [] (PluginMetadata.mk "example" "Example" "1.0.0" "A" "" ["core"])
          (PluginLifecycle.mk (some (Hook.mk "exLoad" false)) none)).2) :=
  ⟨rfl, ⟨"core", by simp, rfl⟩,
    C1_registerPlugin_missing_dep_aborts []
      (PluginMetadata.mk "example" "Example" "1.0.0" "A" "" ["core"])
      (PluginLifecycle.mk (some (Hook.mk "exLoad" false)) none)
      rfl ⟨"core", by simp, rfl⟩⟩

/-- C9: a re-registration that fails its dependency check has already run the
existing record's onUnload hook, yet the existing record stays registered. -/
theorem C9_failed_rereg_runs_unload_keeps_old
    (plugins : Registry) (m : PluginMetadata) (lc : PluginLifecycle)
    (old : PluginRecord) (h1 : Hook)
    (hold : getKey plugins m.id = some old)
    (hu : old.lifecycle.onUnload = some h1)
    (hdep : ∃ d ∈ m.dependencies, hasKey plugins d = false) :
    (registerPlugin plugins m lc).1 = plugins ∧
    getKey (registerPlugin plugins m lc).1 m.id = some old ∧
    PMEvent.unloadRun h1.label ∈ (registerPlugin plugins m lc).2 := by
  obtain ⟨d, hfind⟩ := find?_missing_dep hdep
  have hhas : hasKey plugins m.id = true := getKey_some_hasKey plugins m.id old hold
  refine ⟨?_, ?_, ?_⟩
  · simp [registerPlugin, hfind]
  · simp [registerPlugin, hfind, hold]
  · cases hT : h1.throws <;>
      simp [registerPlugin, hfind, unloadEvents, hhas, hold, runUnloadHook, hu, hT]

/-- Witness for C9: `example` is registered with an unload hook, then
re-registered with a dependency on the absent `missing`. -/
theorem C9_witness :
    getKey [("example",
        PluginRecord.mk (PluginMetadata.mk "example" "Example" "1.0.0" "A" "" [])
          (PluginLifecycle.mk none (some (Hook.mk "exUnload" false))))]
        (PluginMetadata.mk "example" "Example" "2.0.0" "A" "" ["missing"]).id
      = some (PluginRecord.mk (PluginMetadata.mk "example" "Example" "1.0.0" "A" "" [])
          (PluginLifecycle.mk none (some (Hook.mk "exUnload" false)))) ∧
    ((registerPlugin
        [("example",
          PluginRecord.mk (PluginMetadata.mk "example" "Example" "1.0.0" "A" "" [])
            (PluginLifecycle.mk none (some (Hook.mk "exUnload" false))))]
        (PluginMetadata.mk "example" "Example" "2.0.0" "A" "" ["missing"])
        (PluginLifecycle.mk none none)).1
      = [("example",
          PluginRecord.mk (PluginMetadata.mk "example" "Example" "1.0.0" "A" "" [])
            (PluginLifecycle.mk none (some (Hook.mk "exUnload" false))))] ∧
      getKey (registerPlugin
        [("example",
          PluginRecord.mk (PluginMetadata.mk "example" "Example" "1.0.0" "A" "" [])
            (PluginLifecycle.mk none (some (Hook.mk "exUnload" false))))]
        (PluginMetadata.mk "example" "Example" "2.0.0" "A" "" ["missing"])
        (PluginLifecycle.mk none none)).1
        (PluginMetadata.mk "example" "Example" "2.0.0" "A" "" ["missing"]).id
      = some (PluginRecord.mk (PluginMetadata.mk "example" "Example" "1.0.0" "A" "" [])
          (PluginLifecycle.mk none (some (Hook.mk "exUnload" false)))) ∧
      PMEvent.unloadRun (Hook.mk "exUnload" false).label ∈
        (registerPlugin
          [("example",
            PluginRecord.mk (PluginMetadata.mk "example" "Example" "1.0.0" "A" "" [])
              (PluginLifecycle.mk none (some (Hook.mk "exUnload" false))))]
          (PluginMetadata.mk "example" "Example" "2.0.0" "A" "" ["missing"])
          (PluginLifecycle.mk none none)).2) :=
  ⟨rfl,
    C9_failed_rereg_runs_unload_keeps_old _ _ _ _ _ rfl rfl
      ⟨"missing", by simp, rfl⟩⟩

theorem fresh_register_no_unload (plugins : Registry) (m : PluginMetadata)
    (lc : PluginLifecycle) (hfresh : hasKey plugins m.id = false) (s : String) :
    PMEvent.unloadRun s ∉ (registerPlugin plugins m lc).2 := by
  cases hfind : m.dependencies.find? (fun d => !(hasKey plugins d)) with
  | none =>
    simp [registerPlugin, hfind, unloadEvents, hfresh]
    exact fun h => unloadRun_not_mem_runLoadHook m.id lc.onLoad s h
  | some d =>
    simp [registerPlugin, hfind, unloadEvents, hfresh]

/-- The full event trace of a successful re-registration: both hooks
present, all dependencies registered. -/
theorem registerPlugin_rereg_trace (plugins : Registry) (m : PluginMetadata)
    (lc : PluginLifecycle) (old : PluginRecord) (h1 h2 : Hook)
    (hold : getKey plugins m.id = some old)
    (hu : old.lifecycle.onUnload = some h1)
    (hl : lc.onLoad = some h2)
    (hdeps : ∀ d ∈ m.dependencies, hasKey plugins d = true) :
    (registerPlugin plugins m lc).2
      = [PMEvent.logMsg
           ("Registering plugin: " ++ m.name ++ " (" ++ m.id ++ ")"),
         PMEvent.logMsg ("Plugin " ++ m.id ++ " is already registered, updating")]
        ++ PMEvent.unloadRun h1.label ::
          ((if h1.throws then
              [PMEvent.errorLog ("Error in onUnload hook for " ++ m.id)]
            else []) ++
            PMEvent.loadRun h2.label ::
              ((if h2.throws then
                  [PMEvent.errorLog ("Error in onLoad hook for " ++ m.id)]
                else []) ++
                [PMEvent.logMsg ("Plugin " ++ m.id ++ " registered successfully")])) := by
  have hfind : m.dependencies.find? (fun d => !(hasKey plugins d)) = none := by
    rw [List.find?_eq_none]
    intro d hd
    simp [hdeps d hd]
  have hhas : hasKey plugins m.id = true := getKey_some_hasKey plugins m.id old hold
  simp [registerPlugin, hfind, unloadEvents, hhas, hold, runUnloadHook,
    runLoadHook, hu, hl]

/-- C4: registering the same id twice (second call with all dependencies
present) runs the first registration's onUnload hook exactly once, before the
second registration's onLoad hook; exceptions thrown by either hook only add
an error-log event and do not stop the registration. -/
theorem C4_rereg_unload_once_before_load
    (plugins : Registry) (m1 m2 : PluginMetadata) (lc1 lc2 : PluginLifecycle)
    (h1 h2 : Hook)
    (hfresh : hasKey plugins m1.id = false)
    (hd1 : ∀ d ∈ m1.dependencies, hasKey plugins d = true)
    (hsame : m2.id = m1.id)
    (hu : lc1.onUnload = some h1)
    (hl : lc2.onLoad = some h2)
    (hd2 : ∀ d ∈ m2.dependencies,
      hasKey (registerPlugin plugins m1 lc1).1 d = true) :
    ∃ l1 l2 l3 : List PMEvent,
      (registerPlugin plugins m1 lc1).2 ++
          (registerPlugin (registerPlugin plugins m1 lc1).1 m2 lc2).2
        = l1 ++ PMEvent.unloadRun h1.label :: l2 ++
            PMEvent.loadRun h2.label :: l3 ∧
      (∀ s, PMEvent.unloadRun s ∉ l1 ∧ PMEvent.unloadRun s ∉ l2 ∧
        PMEvent.unloadRun s ∉ l3) ∧
      (h1.throws = true →
        PMEvent.errorLog ("Error in onUnload hook for " ++ m2.id) ∈ l2) ∧
      (h2.throws = true →
        PMEvent.errorLog ("Error in onLoad hook for " ++ m2.id) ∈ l3) := by
  have hfind1 : m1.dependencies.find? (fun d => !(hasKey plugins d)) = none := by
    rw [List.find?_eq_none]
    intro d hd
    simp [hd1 d hd]
  have hst1 : (registerPlugin plugins m1 lc1).1
      = setKey plugins m1.id { metadata := m1, lifecycle := lc1 } := by
    simp [registerPlugin, hfind1]
  have hfind2 : m2.dependencies.find?
      (fun d => !(hasKey (registerPlugin plugins m1 lc1).1 d)) = none := by
    rw [List.find?_eq_none]
    intro d hd
    simp [hd2 d hd]
  have hhas2 : hasKey (registerPlugin plugins m1 lc1).1 m2.id = true := by
    rw [hst1, hsame]
    exact hasKey_setKey_self plugins m1.id _
  have hget2 : getKey (registerPlugin plugins m1 lc1).1 m2.id
      = some { metadata := m1, lifecycle := lc1 } := by
    rw [hst1, hsame]
    exact getKey_setKey_self plugins m1.id _
  refine ⟨(registerPlugin plugins m1 lc1).2 ++
      [PMEvent.logMsg
        ("Registering plugin: " ++ m2.name ++ " (" ++ m2.id ++ ")"),
       PMEvent.logMsg ("Plugin " ++ m2.id ++ " is already registered, updating")],
    (if h1.throws then
      [PMEvent.errorLog ("Error in onUnload hook for " ++ m2.id)] else []),
    (if h2.throws then
      [PMEvent.errorLog ("Error in onLoad hook for " ++ m2.id)] else []) ++
      [PMEvent.logMsg ("Plugin " ++ m2.id ++ " registered successfully")],
    ?_, ?_, ?_, ?_⟩
  · rw [registerPlugin_rereg_trace (registerPlugin plugins m1 lc1).1 m2 lc2
      { metadata := m1, lifecycle := lc1 } h1 h2 hget2 hu hl hd2]
    simp [List.append_assoc]
  · intro s
    refine ⟨?_, ?_, ?_⟩
    · simp [fresh_register_no_unload plugins m1 lc1 hfresh s]
    · cases hT : h1.throws <;> simp
    · cases hT : h2.throws <;> simp
  · intro hT
    simp [hT]
  · intro hT
    simp [hT]

/-- Witness for C4: `base` is registered fresh, then re-registered with
throwing hooks; the decomposition from the theorem is evaluated concretely. -/
theorem C4_witness :
    hasKey ([] : Registry) (PluginMetadata.mk "base" "Base" "1" "A" "" []).id
      = false ∧
    (∃ l1 l2 l3 : List PMEvent,
      (registerPlugin []
          (PluginMetadata.mk "base" "Base" "1" "A" "" [])
          (PluginLifecycle.mk (some (Hook.mk "load1" false))
            (some (Hook.mk "unload1" true)))).2 ++
        (registerPlugin
          (registerPlugin []
            (PluginMetadata.mk "base" "Base" "1" "A" "" [])
            (PluginLifecycle.mk (some (Hook.mk "load1" false))
              (some (Hook.mk "unload1" true)))).1
          (PluginMetadata.mk "base" "Base" "2" "A" "" [])
          (PluginLifecycle.mk (some (Hook.mk "load2" true))
            (some (Hook.mk "unload2" false)))).2
        = l1 ++ PMEvent.unloadRun (Hook.mk "unload1" true).label :: l2 ++
            PMEvent.loadRun (Hook.mk "load2" true).label :: l3 ∧
      (∀ s, PMEvent.unloadRun s ∉ l1 ∧ PMEvent.unloadRun s ∉ l2 ∧
        PMEvent.unloadRun s ∉ l3) ∧
      ((Hook.mk "unload1" true).throws = true →
        PMEvent.errorLog ("Error in onUnload hook for " ++
          (PluginMetadata.mk "base" "Base" "2" "A" "" []).id) ∈ l2) ∧
      ((Hook.mk "load2" true).throws = true →
        PMEvent.errorLog ("Error in onLoad hook for " ++
          (PluginMetadata.mk "base" "Base" "2" "A" "" []).id) ∈ l3)) :=
  ⟨rfl,
    C4_rereg_unload_once_before_load []
      (PluginMetadata.mk "base" "Base" "1" "A" "" [])
      (PluginMetadata.mk "base" "Base" "2" "A" "" [])
      (PluginLifecycle.mk (some (Hook.mk "load1" false))
        (some (Hook.mk "unload1" true)))
      (PluginLifecycle.mk (some (Hook.mk "load2" true))
        (some (Hook.mk "unload2" false)))
      (Hook.mk "unload1" true) (Hook.mk "load2" true)
      rfl (by simp) rfl rfl rfl (by simp)⟩

/-! ## Event bus lemmas and C5 -/

theorem getHandlers_onEvent_self (tbl : HandlerTable) (n : String) (h : Hook) :
    getHandlers (onEvent tbl n h) n
      = some (((getHandlers tbl n).getD []) ++ [h]) := by
  induction tbl with
  | nil => simp [onEvent, getHandlers]
  | cons e rest ih =>
    by_cases he : e.1 = n
    · simp [onEvent, getHandlers, he]
    · simp [onEvent, getHandlers, he, ih]

/-- Registering a list of handlers in order via repeated onEvent. -/
def registerAll (tbl : HandlerTable) (n : String) (hs : List Hook) :
    HandlerTable :=
  hs.foldl (fun t h => onEvent t n h) tbl

theorem handlers_registerAll (n : String) (hs : List Hook)
    (tbl : HandlerTable) :
    ((getHandlers (registerAll tbl n hs) n).getD [])
      = ((getHandlers tbl n).getD []) ++ hs := by
  induction hs generalizing tbl with
  | nil => simp [registerAll]
  | cons h rest ih =>
    simp only [registerAll, List.foldl_cons]
    rw [show List.foldl (fun t h => onEvent t n h) (onEvent tbl n h) rest
      = registerAll (onEvent tbl n h) n rest from rfl]
    rw [ih, getHandlers_onEvent_self]
    simp

/-- C5: after registering any list of handlers for a name, emit runs every
handler in registration order; a throwing handler only adds an error log and
all later-registered handlers still run in the same emission. -/
theorem C5_emit_runs_all_handlers_in_order (eventName : String)
    (hs : List Hook) :
    emit (registerAll [] eventName hs) eventName
      = (hs.map (fun h =>
          PMEvent.handlerRun h.label ::
            (if h.throws then
              [PMEvent.errorLog ("Error in event handler for " ++ eventName)]
            else []))).flatten ∧
    ∀ h ∈ hs, PMEvent.handlerRun h.label ∈
      emit (registerAll [] eventName hs) eventName := by
  have hbase : emit (registerAll [] eventName hs) eventName
      = (hs.map (fun h =>
          PMEvent.handlerRun h.label ::
            (if h.throws then
              [PMEvent.errorLog ("Error in event handler for " ++ eventName)]
            else []))).flatten := by
    rw [emit, handlers_registerAll]
    simp [getHandlers]
  refine ⟨hbase, ?_⟩
  intro h hmem
  rw [hbase]
  rw [List.mem_flatten]
  refine ⟨PMEvent.handlerRun h.label ::
    (if h.throws then
      [PMEvent.errorLog ("Error in event handler for " ++ eventName)]
    else []), ?_, by simp⟩
  exact List.mem_map_of_mem _ hmem

/-! ## Path-to-owner resolution
(scripts/hot-reload.js getResourceNameFromPath, lines 133-149, and
src/core/server/hot-reload.ts getResourceNameFromPath, lines 71-91). -/

/-- `filePath.replace(/\\/g, '/')` -/
def normalizeSlashes (l : List Char) : List Char :=
  l.map (fun c => if c = '\\' then '/' else c)

/-- The literal part of the regex /src\/plugins\/([^\/]+)/. -/
def pluginsPat : List Char := "src/plugins/".data

/-- The substring tested by `includes('src/core/')`. -/
def corePat : List Char := "src/core/".data

/-- One attempt of the regex at the current position: the literal
"src/plugins/" followed by a non-empty greedy run of non-slash characters. -/
def matchPluginAt (l : List Char) : Option String :=
  if pluginsPat.isPrefixOf l then
    let name := (l.drop pluginsPat.length).takeWhile (fun c => c ≠ '/')
    if name.isEmpty then none else some (String.mk name)
  else none

/-- Leftmost-first regex search for /src\/plugins\/([^\/]+)/. -/
def findPluginName : List Char → Option String
  | [] => none
  | c :: rest =>
    match matchPluginAt (c :: rest) with
    | some n => some n
    | none => findPluginName rest

/-- `String.prototype.includes` as substring containment. -/
def containsSub : List Char → List Char → Bool
  | [], pat => pat.isEmpty
  | c :: rest, pat => pat.isPrefixOf (c :: rest) || containsSub rest pat

/-- The shared tail of both getResourceNameFromPath versions: regex match
first, then the src/core/ containment check, else null. -/
def resolveOwner (l : List Char) : Option String :=
  match findPluginName l with
  | some n => some n
  | none => if containsSub l corePat then some "core" else none

/-- getResourceNameFromPath of src/core/server/hot-reload.ts: normalizes
path separators before matching. -/
def getResourceNameFromPathTS (filePath : String) : Option String :=
  resolveOwner (normalizeSlashes filePath.data)

/-- getResourceNameFromPath of scripts/hot-reload.js: no separator
normalization. -/
def getResourceNameFromPathJS (filePath : String) : Option String :=
  resolveOwner filePath.data

/-! ### Path-resolution lemmas -/

theorem takeWhile_append_stop (p : Char → Bool) (xs : List Char) (y : Char)
    (ys : List Char) (hxs : ∀ x ∈ xs, p x = true) (hy : p y = false) :
    (xs ++ y :: ys).takeWhile p = xs := by
  induction xs with
  | nil => simp [List.takeWhile, hy]
  | cons x xt ih =>
    have hx : p x = true := hxs x (List.mem_cons_self x xt)
    simp [List.takeWhile_cons, hx,
      ih (fun z hz => hxs z (List.mem_cons_of_mem x hz))]

theorem findPluginName_of_matchPluginAt (l : List Char) (n : String)
    (h : matchPluginAt l = some n) : findPluginName l = some n := by
  cases l with
  | nil => simp [matchPluginAt, pluginsPat, List.isPrefixOf] at h
  | cons c rest => simp [findPluginName, h]

theorem findPluginName_none_of_not_containsSub (l : List Char)
    (h : containsSub l pluginsPat = false) : findPluginName l = none := by
  induction l with
  | nil => rfl
  | cons c rest ih =>
    simp only [containsSub, Bool.or_eq_false_iff] at h
    simp [findPluginName, matchPluginAt, h.1, ih h.2]

theorem containsSub_of_append (pre rest : List Char) (pat : List Char)
    (hpre : pat.isPrefixOf (pre ++ rest) = true) :
    containsSub (pre ++ rest) pat = true := by
  cases hl : pre ++ rest with
  | nil =>
    cases pat with
    | nil => simp [containsSub]
    | cons p ps =>
      rw [hl] at hpre
      simp at hpre
  | cons c t =>
    rw [hl] at hpre
    simp [containsSub, hpre]

/-- C2 counterexample: the watcher script's resolution function performs no
separator normalization, so the backslash form of a path under
src/plugins/foo resolves to no owner while the slash form resolves to foo. -/
theorem C2_counterexample :
    getResourceNameFromPathJS "src\\plugins\\foo\\index.ts" = none ∧
    getResourceNameFromPathJS "src/plugins/foo/index.ts" = some "foo" ∧
    getResourceNameFromPathJS "src\\plugins\\foo\\index.ts"
      ≠ getResourceNameFromPathJS "src/plugins/foo/index.ts" := by
  refine ⟨by decide, by decide, by decide⟩

/-- C2 (amended): the server-side resolution function (hot-reload.ts), which
does normalize separators, maps paths under src/plugins/name to name, paths
under src/core/ with no src/plugins/ segment to core, and paths containing
neither pattern to none, and is invariant under backslash/slash exchange;
the watcher-script version (hot-reload.js) agrees with it on paths that
contain no backslash, but not on backslash-separated paths. -/
theorem C2_path_owner_resolution :
    (∀ (name rest : List Char), name ≠ [] →
      (∀ c ∈ name, c ≠ '/' ∧ c ≠ '\\') →
      getResourceNameFromPathTS
          (String.mk ("src/plugins/".data ++ (name ++ '/' :: rest)))
        = some (String.mk name)) ∧
    (∀ rest : List Char,
      containsSub (normalizeSlashes ("src/core/".data ++ rest)) pluginsPat
          = false →
      getResourceNameFromPathTS (String.mk ("src/core/".data ++ rest))
        = some "core") ∧
    (∀ p : String,
      containsSub (normalizeSlashes p.data) pluginsPat = false →
      containsSub (normalizeSlashes p.data) corePat = false →
      getResourceNameFromPathTS p = none) ∧
    (∀ p : String, getResourceNameFromPathTS p
        = getResourceNameFromPathTS (String.mk (normalizeSlashes p.data))) ∧
    (∀ p : String, (∀ c ∈ p.data, c ≠ '\\') →
      getResourceNameFromPathJS p = getResourceNameFromPathTS p) := by
  have hnorm_id : ∀ l : List Char, (∀ c ∈ l, c ≠ '\\') →
      normalizeSlashes l = l := by
    intro l hl
    induction l with
    | nil => rfl
    | cons c t ih =>
      simp only [normalizeSlashes, List.map_cons] at ih ⊢
      rw [if_neg (hl c (List.mem_cons_self c t)),
        ih (fun z hz => hl z (List.mem_cons_of_mem c hz))]
  have hnorm_idem : ∀ l : List Char,
      normalizeSlashes (normalizeSlashes l) = l.map
        (fun c => if c = '\\' then '/' else c) := by
    intro l
    simp only [normalizeSlashes, List.map_map]
    congr 1
    funext c
    by_cases h : c = '\\' <;> simp [h]
  have hnorm_app : ∀ a b : List Char,
      normalizeSlashes (a ++ b) = normalizeSlashes a ++ normalizeSlashes b :=
    fun a b => List.map_append _ a b
  have hnorm_cons : ∀ r : List Char,
      normalizeSlashes ('/' :: r) = '/' :: normalizeSlashes r := by
    intro r
    simp [normalizeSlashes]
  refine ⟨?_, ?_, ?_, ?_, ?_⟩
  · intro name rest hne hok
    have hsplit : normalizeSlashes ("src/plugins/".data ++ (name ++ '/' :: rest))
        = "src/plugins/".data ++ (name ++ '/' :: normalizeSlashes rest) := by
      rw [hnorm_app, hnorm_app, hnorm_cons,
        show normalizeSlashes "src/plugins/".data = "src/plugins/".data by decide,
        hnorm_id name (fun c hc => (hok c hc).2)]
    rw [getResourceNameFromPathTS]
    rw [show (String.mk ("src/plugins/".data ++ (name ++ '/' :: rest))).data
      = "src/plugins/".data ++ (name ++ '/' :: rest) from rfl]
    rw [hsplit]
    have hmatch : matchPluginAt
        ("src/plugins/".data ++ (name ++ '/' :: normalizeSlashes rest))
        = some (String.mk name) := by
      rw [matchPluginAt]
      have hpre : pluginsPat.isPrefixOf
          ("src/plugins/".data ++ (name ++ '/' :: normalizeSlashes rest))
          = true := by
        rw [show "src/plugins/".data ++ (name ++ '/' :: normalizeSlashes rest)
          = pluginsPat ++ (name ++ '/' :: normalizeSlashes rest) by
            simp [pluginsPat]]
        exact List.isPrefixOf_iff_prefix.mpr (List.prefix_append _ _)
      rw [if_pos hpre]
      have hdrop : ("src/plugins/".data ++ (name ++ '/' ::
          normalizeSlashes rest)).drop pluginsPat.length
          = name ++ '/' :: normalizeSlashes rest := by
        rw [show "src/plugins/".data ++ (name ++ '/' :: normalizeSlashes rest)
          = pluginsPat ++ (name ++ '/' :: normalizeSlashes rest) by
            simp [pluginsPat]]
        exact List.drop_left pluginsPat _
      rw [hdrop, takeWhile_append_stop _ name '/' _
        (fun x hx => by simp [(hok x hx).1]) (by simp)]
      rw [if_neg (by simpa using hne)]
    rw [resolveOwner, findPluginName_of_matchPluginAt _ _ hmatch]
  · intro rest hnopl
    rw [getResourceNameFromPathTS]
    rw [show (String.mk ("src/core/".data ++ rest)).data
      = "src/core/".data ++ rest from rfl]
    rw [resolveOwner, findPluginName_none_of_not_containsSub _ hnopl]
    have hsplit : normalizeSlashes ("src/core/".data ++ rest)
        = "src/core/".data ++ normalizeSlashes rest := by
      rw [hnorm_app,
        show normalizeSlashes "src/core/".data = "src/core/".data by decide]
    rw [hsplit]
    rw [containsSub_of_append "src/core/".data (normalizeSlashes rest) corePat
      (by
        rw [show "src/core/".data ++ normalizeSlashes rest
          = corePat ++ normalizeSlashes rest by simp [corePat]]
        exact List.isPrefixOf_iff_prefix.mpr (List.prefix_append _ _))]
    rfl
  · intro p hnopl hnocore
    rw [getResourceNameFromPathTS, resolveOwner,
      findPluginName_none_of_not_containsSub _ hnopl, hnocore]
    simp
  · intro p
    rw [getResourceNameFromPathTS, getResourceNameFromPathTS]
    rw [show (String.mk (normalizeSlashes p.data)).data
      = normalizeSlashes p.data from rfl]
    rw [show normalizeSlashes (normalizeSlashes p.data)
      = normalizeSlashes p.data from by
        rw [hnorm_idem]
        rfl]
  · intro p hnb
    rw [getResourceNameFromPathJS, getResourceNameFromPathTS,
      hnorm_id p.data hnb]

/-- Witness for C2 at concrete inputs. -/
theorem C2_witness :
    getResourceNameFromPathTS
        (String.mk ("src/plugins/".data ++ ("foo".data ++ '/' :: "index.ts".data)))
      = some (String.mk "foo".data) ∧
    getResourceNameFromPathTS (String.mk ("src/core/".data ++ "server/x.ts".data))
      = some "core" ∧
    getResourceNameFromPathTS "docs/readme.md" = none ∧
    getResourceNameFromPathJS "src/plugins/foo/a.ts"
      = getResourceNameFromPathTS "src/plugins/foo/a.ts" :=
  ⟨C2_path_owner_resolution.1 "foo".data "index.ts".data (by decide) (by decide),
   C2_path_owner_resolution.2.1 "server/x.ts".data (by decide),
   C2_path_owner_resolution.2.2.1 "docs/readme.md" (by decide) (by decide),
   C2_path_owner_resolution.2.2.2.2 "src/plugins/foo/a.ts" (by decide)⟩

/-! ## Debounced rebuild coordinator
(scripts/hot-reload.js handleFileChange, lines 78-115).
`pendingReloads` is a Set of owner ids; `reloadTimer` is the single debounce
timer, reset (clearTimeout + setTimeout 500) on every event.  Time is
modelled as Nat milliseconds; the timer fires before an event whose
timestamp is at or past the deadline. -/

/-- The watcher's mutable state: the pending-reload set (insertion ordered)
and the debounce timer deadline. -/
structure WatcherState where
  pending : List String
  timer : Option Nat
deriving DecidableEq

/-- Actions the debounce callback performs. -/
inductive WAction where
  | rebuildCore
  | rebuildPlugin (owner : String)
  | reload (resources : List String)
deriving DecidableEq

/-- The per-owner dispatch inside the timeout callback:
core goes to buildCore(), every other owner to buildPlugin(owner). -/
def rebuildOne (o : String) : WAction :=
  if o == "core" then WAction.rebuildCore else WAction.rebuildPlugin o

/-- The body of the setTimeout callback: rebuild every accumulated owner,
then trigger one reload with the drained list. -/
def fireActions (pending : List String) : List WAction :=
  pending.map rebuildOne ++ [WAction.reload pending]

/-- Set.add: append the owner when not already present. -/
def addPending (p : List String) (o : String) : List String :=
  if o ∈ p then p else p ++ [o]

/-- handleFileChange at time `t`: resolve the owner (ignoring unresolvable
paths), add it to the pending set, and reset the debounce timer to t+500. -/
def handleFileChange (st : WatcherState) (t : Nat) (filePath : String) :
    WatcherState :=
  match getResourceNameFromPathJS filePath with
  | none => st
  | some o => { pending := addPending st.pending o, timer := some (t + 500) }

/-- Drive the watcher over a time-ordered list of (timestamp, path) change
events; an armed timer whose deadline is at or before the next event fires
first, and a timer still armed after the last event fires at the end. -/
def runWatcher : WatcherState → List (Nat × String) → WatcherState × List WAction
  | st, [] =>
    match st.timer with
    | none => (st, [])
    | some _ => ({ pending := [], timer := none }, fireActions st.pending)
  | st, (t, p) :: rest =>
    match st.timer with
    | some d =>
      if d ≤ t then
        let acts := fireActions st.pending
        let r := runWatcher
          (handleFileChange { pending := [], timer := none } t p) rest
        (r.1, acts ++ r.2)
      else runWatcher (handleFileChange st t p) rest
    | none => runWatcher (handleFileChange st t p) rest

/-- Consecutive events each arrive inside the 500 ms quiet window opened by
the previous one. -/
def withinWindow : Nat → List (Nat × String) → Prop
  | _, [] => True
  | tprev, e :: rest => tprev ≤ e.1 ∧ e.1 < tprev + 500 ∧ withinWindow e.1 rest

theorem runWatcher_burst (o : String) (tprev : Nat) (evs : List (Nat × String))
    (hpaths : ∀ e ∈ evs, getResourceNameFromPathJS e.2 = some o)
    (hwin : withinWindow tprev evs) :
    runWatcher { pending := [o], timer := some (tprev + 500) } evs
      = ({ pending := [], timer := none }, fireActions [o]) := by
  induction evs generalizing tprev with
  | nil => simp [runWatcher]
  | cons e rest ih =>
    obtain ⟨hle, hlt, hrest⟩ := hwin
    obtain ⟨t, p⟩ := e
    have hpath : getResourceNameFromPathJS p = some o :=
      hpaths (t, p) (List.mem_cons_self _ _)
    have hfc : handleFileChange { pending := [o], timer := some (tprev + 500) } t p
        = { pending := [o], timer := some (t + 500) } := by
      simp [handleFileChange, hpath, addPending]
    rw [runWatcher]
    simp only [if_neg (by omega : ¬ tprev + 500 ≤ t)]
    rw [hfc]
    exact ih t (fun e he => hpaths e (List.mem_cons_of_mem _ he)) hrest

/-- C3: N >= 1 change events for the same owner inside the rolling 500 ms
debounce window produce exactly one rebuild for that owner (plus one reload
with the drained singleton list), the pending set is cleared when the cycle
fires, and handleFileChange never removes entries from the pending set. -/
theorem C3_debounce_single_rebuild (o : String) (e0 : Nat × String)
    (rest : List (Nat × String))
    (hpaths : ∀ e ∈ e0 :: rest, getResourceNameFromPathJS e.2 = some o)
    (hwin : withinWindow e0.1 rest) :
    runWatcher { pending := [], timer := none } (e0 :: rest)
      = ({ pending := [], timer := none },
          [rebuildOne o, WAction.reload [o]]) ∧
    ((runWatcher { pending := [], timer := none } (e0 :: rest)).2.filter
        (fun a => a = rebuildOne o)).length = 1 ∧
    (∀ (st : WatcherState) (t : Nat) (p : String),
      ∀ x ∈ st.pending, x ∈ (handleFileChange st t p).pending) := by
  obtain ⟨t0, p0⟩ := e0
  have hpath0 : getResourceNameFromPathJS p0 = some o :=
    hpaths (t0, p0) (List.mem_cons_self _ _)
  have hrun : runWatcher { pending := [], timer := none } ((t0, p0) :: rest)
      = ({ pending := [], timer := none }, fireActions [o]) := by
    rw [runWatcher]
    simp only []
    rw [show handleFileChange { pending := [], timer := none } t0 p0
      = { pending := [o], timer := some (t0 + 500) } by
        simp [handleFileChange, hpath0, addPending]]
    exact runWatcher_burst o t0 rest
      (fun e he => hpaths e (List.mem_cons_of_mem _ he)) hwin
  refine ⟨?_, ?_, ?_⟩
  · rw [hrun]
    simp [fireActions]
  · rw [hrun]
    by_cases ho : o = "core" <;> simp [fireActions, rebuildOne, ho]
  · intro st t p x hx
    rw [handleFileChange]
    cases hres : getResourceNameFromPathJS p with
    | none => exact hx
    | some o2 =>
      simp only [addPending]
      by_cases hmem : o2 ∈ st.pending
      · simp [hmem, hx]
      · simp [hmem]
        exact Or.inl hx

/-- Witness for C3: three rapid events on files of plugin foo. -/
theorem C3_witness :
    (∀ e ∈ [((0 : Nat), "src/plugins/foo/a.ts"), (100, "src/plugins/foo/a.ts"),
        (400, "src/plugins/foo/b.ts")],
      getResourceNameFromPathJS e.2 = some "foo") ∧
    withinWindow 0 [((100 : Nat), "src/plugins/foo/a.ts"),
        (400, "src/plugins/foo/b.ts")] ∧
    runWatcher { pending := [], timer := none }
        [((0 : Nat), "src/plugins/foo/a.ts"), (100, "src/plugins/foo/a.ts"),
          (400, "src/plugins/foo/b.ts")]
      = ({ pending := [], timer := none },
          [rebuildOne "foo", WAction.reload ["foo"]]) :=
  ⟨by decide, by simp [withinWindow],
    (C3_debounce_single_rebuild "foo" (0, "src/plugins/foo/a.ts")
      [(100, "src/plugins/foo/a.ts"), (400, "src/plugins/foo/b.ts")]
      (by decide) (by simp [withinWindow])).1⟩

/-! ## reloadPlugin (src/core/server/hot-reload.ts lines 97-164)
`reloadingResources` is a Map from plugin id to the Date.now() timestamp of
the last reload start.  The try body may throw (alt.emit /
alt.restartResource); the catch logs and emits the failed event, and the
finally block always deletes the entry. -/

/-- The reloadingResources Map. -/
abbrev ReloadMap := List (String × Nat)

def rmHas : ReloadMap → String → Bool
  | [], _ => false
  | e :: rest, k => e.1 == k || rmHas rest k

def rmGet : ReloadMap → String → Option Nat
  | [], _ => none
  | e :: rest, k => if e.1 == k then some e.2 else rmGet rest k

def rmSet : ReloadMap → String → Nat → ReloadMap
  | [], k, v => [(k, v)]
  | e :: rest, k, v => if e.1 == k then (k, v) :: rest else e :: rmSet rest k v

/-- Map.delete (keys are unique, so removing every binding of the key is
the same operation). -/
def rmErase (m : ReloadMap) (k : String) : ReloadMap :=
  m.filter (fun e => !(e.1 == k))

/-- Observable events of reloadPlugin. -/
inductive REvent where
  | logMsg (msg : String)
  | errorLog (msg : String)
  | emitStart (pluginId : String)
  | emitComplete (pluginId : String)
  | emitFailed (pluginId : String)
  | restartResource (name : String)
deriving DecidableEq

/-- Result of one reloadPlugin call. -/
structure ReloadResult where
  state : ReloadMap
  events : List REvent
  skipped : Bool
deriving DecidableEq

/-- reloadPlugin: the early-return guard skips when the id is present with a
timestamp less than 1000 ms old; otherwise the entry is stamped, the try
body runs (possibly throwing, possibly restarting core), and the finally
block deletes the entry. -/
def reloadPlugin (m : ReloadMap) (pluginId : String) (now : Nat)
    (bodyThrows : Bool) : ReloadResult :=
  if rmHas m pluginId ∧ now - (rmGet m pluginId).getD 0 < 1000 then
    { state := m,
      events := [REvent.logMsg
        ("Plugin " ++ pluginId ++ " is already being reloaded, skipping")],
      skipped := true }
  else
    let stamped := rmSet m pluginId now
    let headEvents := [REvent.emitStart pluginId,
      REvent.logMsg ("Reloading plugin: " ++ pluginId)]
    let bodyEvents :=
      if bodyThrows then
        [REvent.errorLog ("Failed to reload resource " ++ pluginId),
         REvent.emitFailed pluginId]
      else if pluginId == "core" then
        [REvent.logMsg "Reloading core resource",
         REvent.restartResource "core",
         REvent.emitComplete pluginId]
      else
        [REvent.emitComplete pluginId,
         REvent.logMsg ("Resource " ++ pluginId ++ " reloaded successfully")]
    { state := rmErase stamped pluginId,
      events := headEvents ++ bodyEvents,
      skipped := false }

/-- A sequence of non-reentrant reloadPlugin calls, collecting the skip
flags. -/
def runReloads : ReloadMap → List (String × Nat × Bool) → ReloadMap × List Bool
  | m, [] => (m, [])
  | m, c :: rest =>
    let r := reloadPlugin m c.1 c.2.1 c.2.2
    let rec2 := runReloads r.state rest
    (rec2.1, r.skipped :: rec2.2)

theorem rmHas_rmErase_self (m : ReloadMap) (k : String) :
    rmHas (rmErase m k) k = false := by
  induction m with
  | nil => rfl
  | cons e rest ih =>
    by_cases h : e.1 = k
    · simpa [rmErase, h] using ih
    · simpa [rmErase, rmHas, h] using ih

/-- C10: every non-skipped reloadPlugin call (normal or throwing body)
leaves its plugin id absent from reloadingResources, and any sequence of
sequential calls starting from the empty map keeps the map empty after each
call, so the 1000 ms skip guard never suppresses a reload. -/
theorem C10_reloadingResources_always_drained
    (calls : List (String × Nat × Bool)) :
    (runReloads [] calls).1 = [] ∧
    (∀ s ∈ (runReloads [] calls).2, s = false) ∧
    (∀ (m : ReloadMap) (id : String) (now : Nat) (thr : Bool),
      (reloadPlugin m id now thr).skipped = false →
      rmHas (reloadPlugin m id now thr).state id = false) := by
  have hempty : ∀ (id : String) (now : Nat) (thr : Bool),
      reloadPlugin [] id now thr
        = { state := rmErase (rmSet [] id now) id,
            events := (reloadPlugin [] id now thr).events,
            skipped := false } := by
    intro id now thr
    rw [reloadPlugin]
    rw [if_neg (by simp [rmHas])]
  have herase : ∀ (id : String) (now : Nat),
      rmErase (rmSet [] id now) id = [] := by
    intro id now
    simp [rmSet, rmErase]
  have hrun : (runReloads [] calls).1 = [] ∧
      ∀ s ∈ (runReloads [] calls).2, s = false := by
    induction calls with
    | nil => simp [runReloads]
    | cons c rest ih =>
      rw [runReloads]
      rw [hempty c.1 c.2.1 c.2.2]
      simp only [herase c.1 c.2.1]
      refine ⟨ih.1, ?_⟩
      intro s hs
      rcases List.mem_cons.mp hs with h | h
      · exact h
      · exact ih.2 s h
  refine ⟨hrun.1, hrun.2, ?_⟩
  intro m id now thr hskip
  by_cases hguard : rmHas m id ∧ now - (rmGet m id).getD 0 < 1000
  · rw [reloadPlugin, if_pos hguard] at hskip
    simp at hskip
  · rw [reloadPlugin, if_neg hguard]
    exact rmHas_rmErase_self _ _

/-- Witness for C10: two back-to-back reloads of the same plugin, the second
with a throwing body. -/
theorem C10_witness :
    (runReloads [] [("example", 0, false), ("example", 100, true)]).1 = [] ∧
    (∀ s ∈ (runReloads [] [("example", 0, false), ("example", 100, true)]).2,
      s = false) :=
  ⟨(C10_reloadingResources_always_drained
      [("example", 0, false), ("example", 100, true)]).1,
   (C10_reloadingResources_always_drained
      [("example", 0, false), ("example", 100, true)]).2.1⟩

/-! ## triggerReload (scripts/hot-reload.js lines 521-538)
The function only logs: the socket-based reload protocol described in the
spec is marked TODO in the source and is not implemented. -/

/-- Effects the reload trigger could perform.  The TCP constructors exist so
that absence of socket traffic is expressible. -/
inductive TEffect where
  | logMsg (msg : String)
  | tcpConnect (port : Nat)
  | tcpSend (payload : String)
  | tcpAwaitAck
deriving DecidableEq

/-- triggerReload, translated from scripts/hot-reload.js: three console.log
calls and nothing else (the body between them is comments and a TODO). -/
def triggerReload (resources : List String) : List TEffect :=
  [TEffect.logMsg ("Triggering reload for resources: " ++
      String.intercalate ", " resources),
   TEffect.logMsg "Reloading core resource...",
   TEffect.logMsg "Reload triggered successfully!"]

/-- Whether an effect is TCP socket traffic. -/
def isTcpEffect : TEffect → Bool
  | TEffect.tcpConnect _ => true
  | TEffect.tcpSend _ => true
  | TEffect.tcpAwaitAck => true
  | TEffect.logMsg _ => false

/-- C6 counterexample: triggering a reload for the rebuilt resource list
["example"] opens no TCP connection, sends no JSON envelope and awaits no
acknowledgement - the trace contains no TCP effect at all. -/
theorem C6_counterexample :
    (triggerReload ["example"]).all (fun e => !(isTcpEffect e)) = true ∧
    ¬ ∃ e ∈ triggerReload ["example"], isTcpEffect e = true := by
  refine ⟨by decide, by decide⟩

/-- C6 (amended): for every resource list, the coordinator's reload trigger
only writes console logs; it never connects to a TCP socket, never sends a
reload envelope and never awaits an acknowledgement. -/
theorem C6_triggerReload_only_logs (resources : List String) :
    (∀ e ∈ triggerReload resources, isTcpEffect e = false) ∧
    (∃ msgs : List String,
      triggerReload resources = msgs.map TEffect.logMsg) := by
  refine ⟨?_, ?_⟩
  · intro e he
    simp [triggerReload] at he
    rcases he with h | h | h <;> simp [h, isTcpEffect]
  · exact ⟨["Triggering reload for resources: " ++
        String.intercalate ", " resources,
      "Reloading core resource...", "Reload triggered successfully!"], rfl⟩

/-- Witness for C6 at the concrete resource list ["example"]. -/
theorem C6_witness :
    (∀ e ∈ triggerReload ["example"], isTcpEffect e = false) ∧
    (∃ msgs : List String,
      triggerReload ["example"] = msgs.map TEffect.logMsg) :=
  C6_triggerReload_only_logs ["example"]

/-! ## Resource assembler (scripts/build.js)
build.js holds two concatenated script revisions.  Revision 1 (lines 1-768)
builds each plugin as a standalone resource under resources/<name>/ and
synthesizes a resource.toml per plugin; revision 2 (lines 770-1427) embeds
plugins under resources/main/core/plugins/<name>/ and extracts metadata.json
from the source resource.toml.  The bundler (esbuild) is modelled as an
uninterpreted deterministic function `compile` from source text to bundle
text; each non-declaration .ts entry point yields one bundle at the
mirrored relative path with the .ts extension replaced by .js (source maps
are further deterministic outputs of the same inputs and are subsumed). -/

/-- An output tree: association list from path to file bytes. -/
abbrev FileTree := List (String × String)

def lookupFile : FileTree → String → Option String
  | [], _ => none
  | e :: rest, p => if e.1 == p then some e.2 else lookupFile rest p

def writeFile : FileTree → String → String → FileTree
  | [], p, c => [(p, c)]
  | e :: rest, p, c =>
    if e.1 == p then (p, c) :: rest else e :: writeFile rest p c

/-- Perform a list of (path, content) writes in order, later writes
overwriting earlier ones. -/
def applyWrites (fs : FileTree) (ws : List (String × String)) : FileTree :=
  ws.foldl (fun acc w => writeFile acc w.1 w.2) fs

/-- The last content written to a path by a write list. -/
def findLastWrite : List (String × String) → String → Option String
  | [], _ => none
  | w :: rest, p =>
    match findLastWrite rest p with
    | some c => some c
    | none => if w.1 == p then some w.2 else none

theorem lookupFile_writeFile (fs : FileTree) (q p c) :
    lookupFile (writeFile fs q c) p
      = if q == p then some c else lookupFile fs p := by
  induction fs with
  | nil => simp [writeFile, lookupFile]
  | cons e rest ih =>
    by_cases h : e.1 = q
    · by_cases h2 : q = p <;> simp [writeFile, lookupFile, h, h2]
    · by_cases h2 : e.1 = p
      · have hqp : ¬ q = p := fun hq => h (h2.trans hq.symm)
        have hpq : ¬ p = q := fun hq => hqp hq.symm
        simp [writeFile, lookupFile, h, h2, hqp, hpq]
      · simp [writeFile, lookupFile, h, h2, ih]

theorem lookupFile_applyWrites (ws : List (String × String)) (fs : FileTree)
    (p : String) :
    lookupFile (applyWrites fs ws) p
      = match findLastWrite ws p with
        | some c => some c
        | none => lookupFile fs p := by
  induction ws generalizing fs with
  | nil => simp [applyWrites, findLastWrite]
  | cons w rest ih =>
    rw [show applyWrites fs (w :: rest)
      = applyWrites (writeFile fs w.1 w.2) rest from rfl]
    rw [ih]
    rw [show findLastWrite (w :: rest) p
      = match findLastWrite rest p with
        | some c => some c
        | none => if w.1 == p then some w.2 else none from rfl]
    cases hlast : findLastWrite rest p with
    | some c => simp
    | none =>
      simp only []
      rw [lookupFile_writeFile]
      by_cases h : w.1 = p <;> simp [h]

/-- Applying the same write list twice leaves every path with the same
bytes as applying it once. -/
theorem applyWrites_idem (fs : FileTree) (ws : List (String × String))
    (p : String) :
    lookupFile (applyWrites (applyWrites fs ws) ws) p
      = lookupFile (applyWrites fs ws) p := by
  rw [lookupFile_applyWrites, lookupFile_applyWrites]
  cases h : findLastWrite ws p with
  | some c => simp
  | none => simp

/-! ### Regex-based manifest field extraction
/name\s*=\s*"([^"]+)"/i etc., as leftmost-first scans. -/

/-- The \s class of the JS regexes (ASCII part). -/
def isWsChar (c : Char) : Bool :=
  c = ' ' || c = '\t' || c = '\n' || c = '\r' || c = '\x0b' || c = '\x0c'

/-- Case-insensitive literal match at the head, returning the remainder. -/
def matchKeyAt : List Char → List Char → Option (List Char)
  | [], l => some l
  | _ :: _, [] => none
  | k :: ks, c :: cs => if k.toLower == c.toLower then matchKeyAt ks cs else none

/-- "([^"]+)" at the head: quote, non-empty run of non-quotes, quote. -/
def matchQuotedCapture : List Char → Option (List Char)
  | '"' :: rest =>
    let cap := rest.takeWhile (fun c => c ≠ '"')
    if cap.isEmpty then none
    else
      match rest.drop cap.length with
      | '"' :: _ => some cap
      | _ => none
  | _ => none

/-- \[([^\]]+)\] at the head. -/
def matchBracketCapture : List Char → Option (List Char)
  | '[' :: rest =>
    let cap := rest.takeWhile (fun c => c ≠ ']')
    if cap.isEmpty then none
    else
      match rest.drop cap.length with
      | ']' :: _ => some cap
      | _ => none
  | _ => none

/-- One attempt of /key\s*=\s*capture/i at the current position. -/
def tryFieldAt (key : List Char) (bracket : Bool) (l : List Char) :
    Option (List Char) :=
  match matchKeyAt key l with
  | none => none
  | some after =>
    match after.dropWhile isWsChar with
    | '=' :: after2 =>
      let after3 := after2.dropWhile isWsChar
      if bracket then matchBracketCapture after3 else matchQuotedCapture after3
    | _ => none

/-- Leftmost-first search for the field pattern over the manifest text. -/
def findField (key : List Char) (bracket : Bool) : List Char → Option (List Char)
  | [] => none
  | c :: rest =>
    match tryFieldAt key bracket (c :: rest) with
    | some cap => some cap
    | none => findField key bracket rest

/-- String.prototype.split(',') : keeps empty segments. -/
def splitComma : List Char → List (List Char)
  | [] => [[]]
  | c :: rest =>
    let r := splitComma rest
    if c = ',' then [] :: r
    else
      match r with
      | [] => [[c]]
      | h :: t => (c :: h) :: t

/-- String.prototype.trim (ASCII whitespace). -/
def trimChars (l : List Char) : List Char :=
  ((l.dropWhile isWsChar).reverse.dropWhile isWsChar).reverse

/-- depsMatch[1].split(',').map(d => d.trim().replace(/"/g, '')) -/
def splitDeps (cap : List Char) : List String :=
  (splitComma cap).map (fun d =>
    String.mk ((trimChars d).filter (fun c => c ≠ '"')))

/-- The "always ensure core is a dependency" push of build.js. -/
def ensureCore (deps : List String) : List String :=
  if deps.contains "core" then deps else deps ++ ["core"]

/-- metadata.json record of build.js revision 2 (lines 1087-1121). -/
structure BuildMetadata where
  id : String
  name : String
  version : String
  author : Option String
  description : Option String
  dependencies : List String
  supportsHotReload : Bool
deriving DecidableEq

/-- build.js revision 2, lines 1086-1127: defaults, then best-effort regex
extraction from resource.toml, always ensuring core is a dependency. -/
def extractMetadataBuild (pluginName : String) (toml : Option String) :
    BuildMetadata :=
  let base : BuildMetadata :=
    { id := pluginName, name := pluginName, version := "1.0.0",
      author := none, description := none,
      dependencies := ["core"], supportsHotReload := true }
  match toml with
  | none => base
  | some content =>
    let cs := content.data
    let m1 := match findField "name".data false cs with
      | some cap => { base with name := String.mk cap }
      | none => base
    let m2 := match findField "version".data false cs with
      | some cap => { m1 with version := String.mk cap }
      | none => m1
    let m3 := match findField "author".data false cs with
      | some cap => { m2 with author := some (String.mk cap) }
      | none => m2
    let m4 := match findField "description".data false cs with
      | some cap => { m3 with description := some (String.mk cap) }
      | none => m3
    match findField "deps".data true cs with
    | some cap => { m4 with dependencies := ensureCore (splitDeps cap) }
    | none => m4

/-- metadata.json record of scripts/hot-reload.js buildPlugin
(lines 361-392). -/
structure HRMetadata where
  id : String
  name : String
  version : String
  dependencies : List String
deriving DecidableEq

/-- scripts/hot-reload.js lines 362-392: same regex extraction, but the
declared deps replace the default with no core membership check. -/
def extractMetadataHotReload (pluginName : String) (toml : Option String) :
    HRMetadata :=
  let base : HRMetadata :=
    { id := pluginName, name := pluginName, version := "1.0.0",
      dependencies := ["core"] }
  match toml with
  | none => base
  | some content =>
    let cs := content.data
    let m1 := match findField "name".data false cs with
      | some cap => { base with name := String.mk cap }
      | none => base
    let m2 := match findField "version".data false cs with
      | some cap => { m1 with version := String.mk cap }
      | none => m1
    match findField "deps".data true cs with
    | some cap => { m2 with dependencies := splitDeps cap }
    | none => m2

/-! ### Build write sets -/

/-- path.endsWith(ext) on the character representation. -/
def hasExt (p : String) (ext : String) : Bool :=
  ext.data.isSuffixOf p.data

/-- The walkSync filter of compileTypeScript: .ts files that are not
declaration files. -/
def tsEntries (files : List (String × String)) : List (String × String) :=
  files.filter (fun f => hasExt f.1 ".ts" && !(hasExt f.1 ".d.ts"))

/-- The copyFiles *.js glob. -/
def jsEntries (files : List (String × String)) : List (String × String) :=
  files.filter (fun f => hasExt f.1 ".js")

/-- The copyFiles *.{html,css,png,jpg,jpeg,gif,svg} glob. -/
def assetEntries (files : List (String × String)) : List (String × String) :=
  files.filter (fun f => hasExt f.1 ".html" || hasExt f.1 ".css" ||
    hasExt f.1 ".png" || hasExt f.1 ".jpg" || hasExt f.1 ".jpeg" ||
    hasExt f.1 ".gif" || hasExt f.1 ".svg")

/-- The copyDirectory of the client/html subtree: every file under html/,
copied to the same relative location under the output client/ dir. -/
def htmlEntries (files : List (String × String)) : List (String × String) :=
  files.filter (fun f => "html/".data.isPrefixOf f.1.data)

/-- outExtension: replace the trailing .ts by .js. -/
def tsToJs (p : String) : String :=
  String.mk (p.data.take (p.data.length - 2) ++ "js".data)

/-- esbuild invocation: one bundle per entry point at the mirrored relative
path. -/
def compileWrites (compile : String → String) (outPrefix : String)
    (files : List (String × String)) : List (String × String) :=
  (tsEntries files).map (fun f => (outPrefix ++ tsToJs f.1, compile f.2))

/-- Verbatim copies into the output prefix. -/
def copyWrites (outPrefix : String) (files : List (String × String)) :
    List (String × String) :=
  files.map (fun f => (outPrefix ++ f.1, f.2))

/-- One plugin's source subtrees (each Option is the existence of the
corresponding directory; file paths are relative to the subtree). -/
structure PluginSource where
  name : String
  server : Option (List (String × String))
  client : Option (List (String × String))
  shared : Option (List (String × String))
  resourceToml : Option String
deriving DecidableEq

/-- deps.map(d => `"${d}"`).join(', ') -/
def quoteJoin (deps : List String) : String :=
  String.intercalate ", " (deps.map (fun d => "\"" ++ d ++ "\""))

/-- The default per-plugin resource.toml template of build.js revision 1
(lines 423-431). -/
def pluginTomlTemplate (pluginName : String) : String :=
  "# " ++ pluginName ++ " resource configuration\n" ++
  "type = \"js\"\n" ++
  "main = \"server/index.js\"\n" ++
  "client-main = \"client/index.js\"\n" ++
  "client-files = [\"client/*\", \"shared/*\"]\n" ++
  "deps = [\"core\"]\n" ++
  "name = \"" ++ pluginName ++ "\"\n" ++
  "version = \"1.0.0\"\n"

/-- build.js revision 1, lines 433-480: template with extracted name and
version substituted, author/description appended, and the deps line
rewritten with core always ensured. -/
def makePluginToml (pluginName : String) (srcToml : Option String) : String :=
  match srcToml with
  | none => pluginTomlTemplate pluginName
  | some content =>
    let cs := content.data
    let base := pluginTomlTemplate pluginName
    let s1 := match findField "name".data false cs with
      | some cap => base.replace ("name = \"" ++ pluginName ++ "\"")
          ("name = \"" ++ String.mk cap ++ "\"")
      | none => base
    let s2 := match findField "version".data false cs with
      | some cap => s1.replace "version = \"1.0.0\""
          ("version = \"" ++ String.mk cap ++ "\"")
      | none => s1
    let s3 := match findField "author".data false cs with
      | some cap => s2 ++ "author = \"" ++ String.mk cap ++ "\"\n"
      | none => s2
    let s4 := match findField "description".data false cs with
      | some cap => s3 ++ "description = \"" ++ String.mk cap ++ "\"\n"
      | none => s3
    match findField "deps".data true cs with
    | some cap =>
      let deps := splitDeps cap
      let deps2 := if deps.contains "core" then deps else deps ++ ["core"]
      s4.replace "deps = [\"core\"]" ("deps = [" ++ quoteJoin deps2 ++ "]")
    | none => s4

/-- The fixed metadata.json of build.js revision 1 (lines 486-497),
rendered as JSON.stringify(metadata, null, 2). -/
def metadataJsonStandalone (pluginName : String) : String :=
  "\x7b\n  \"id\": \"" ++ pluginName ++ "\",\n  \"name\": \"" ++ pluginName ++
  "\",\n  \"version\": \"1.0.0\",\n  \"dependencies\": [\n    \"core\"\n  ]," ++
  "\n  \"supportsHotReload\": true,\n  \"isStandaloneResource\": true\n\x7d"

/-- JSON.stringify(metadata, null, 2) for the revision-2 metadata record
(key order follows the JS object's insertion order; whitespace of nested
arrays is not load-bearing for any claim). -/
def jsonOfBuildMetadata (m : BuildMetadata) : String :=
  "\x7b\n  \"id\": \"" ++ m.id ++ "\",\n  \"name\": \"" ++ m.name ++
  "\",\n  \"version\": \"" ++ m.version ++ "\",\n  \"dependencies\": [" ++
  quoteJoin m.dependencies ++ "],\n  \"supportsHotReload\": " ++
  (if m.supportsHotReload then "true" else "false") ++
  (match m.author with
   | some a => ",\n  \"author\": \"" ++ a ++ "\""
   | none => "") ++
  (match m.description with
   | some d => ",\n  \"description\": \"" ++ d ++ "\""
   | none => "") ++ "\n\x7d"

/-- build.js revision 1 buildPlugin (lines 330-508): the plugin's writes in
the standalone resource layout resources/<name>/. -/
def buildPluginStandalone (compile : String → String) (p : PluginSource) :
    List (String × String) :=
  let out := "resources/" ++ p.name ++ "/"
  (match p.server with
   | some files =>
     compileWrites compile (out ++ "server/") files ++
     copyWrites (out ++ "server/") (jsEntries files)
   | none => []) ++
  (match p.client with
   | some files =>
     compileWrites compile (out ++ "client/") files ++
     copyWrites (out ++ "client/") (jsEntries files) ++
     copyWrites (out ++ "client/") (assetEntries files) ++
     copyWrites (out ++ "client/") (htmlEntries files)
   | none => []) ++
  (match p.shared with
   | some files =>
     compileWrites compile (out ++ "shared/") files ++
     copyWrites (out ++ "shared/") (jsEntries files)
   | none => []) ++
  [(out ++ "resource.toml", makePluginToml p.name p.resourceToml),
   (out ++ "metadata.json", metadataJsonStandalone p.name)]

/-- build.js revision 2 buildPlugin (lines 1002-1141): the plugin's writes
in the embedded layout resources/main/core/plugins/<name>/, with
metadata.json extracted from the source manifest. -/
def buildPluginEmbedded (compile : String → String) (p : PluginSource) :
    List (String × String) :=
  let out := "resources/main/core/plugins/" ++ p.name ++ "/"
  (match p.server with
   | some files =>
     compileWrites compile (out ++ "server/") files ++
     copyWrites (out ++ "server/") (jsEntries files)
   | none => []) ++
  (match p.client with
   | some files =>
     compileWrites compile (out ++ "client/") files ++
     copyWrites (out ++ "client/") (jsEntries files) ++
     copyWrites (out ++ "client/") (assetEntries files) ++
     copyWrites (out ++ "client/") (htmlEntries files)
   | none => []) ++
  (match p.shared with
   | some files =>
     compileWrites compile (out ++ "shared/") files ++
     copyWrites (out ++ "shared/") (jsEntries files)
   | none => []) ++
  [(out ++ "metadata.json",
    jsonOfBuildMetadata (extractMetadataBuild p.name p.resourceToml))]

/-- The core source subtrees. -/
structure CoreSource where
  server : List (String × String)
  client : List (String × String)
  shared : Option (List (String × String))
  resourceToml : Option String
deriving DecidableEq

/-- The default core resource.toml created by build.js revision 1 when the
source manifest is missing (lines 141-151). -/
def defaultCoreToml : String :=
  "# Core resource configuration\n" ++
  "type = \"js\"\n" ++
  "main = \"server/index.js\"\n" ++
  "client-main = \"client/index.js\"\n" ++
  "client-files = [ \"client/*\" ]\n" ++
  "name = \"core\"\n" ++
  "version = \"1.0.0\"\n" ++
  "description = \"Core resource for AltV\"\n" ++
  "author = \"AltV Developer\"\n" ++
  "deps = []\n"

/-- build.js revision 1 buildCore (lines 86-171): compiles the three core
subtrees into resources/core/ and copies resource.toml, first creating the
default manifest in the source tree when it is missing.  Returns the writes
and the (possibly updated) core source. -/
def buildCore (compile : String → String) (core : CoreSource) :
    List (String × String) × CoreSource :=
  let tomlContent :=
    match core.resourceToml with
    | some t => t
    | none => defaultCoreToml
  (compileWrites compile "resources/core/server/" core.server ++
    compileWrites compile "resources/core/client/" core.client ++
    (match core.shared with
     | some files => compileWrites compile "resources/core/shared/" files
     | none => []) ++
    [("resources/core/resource.toml", tomlContent)],
   { core with resourceToml := some tomlContent })

/-- The whole source tree. -/
structure ProjectSource where
  core : CoreSource
  plugins : List PluginSource
deriving DecidableEq

/-- build.js revision 1 build (lines 33-63): buildCore then buildPlugins
over every plugin directory.  Returns the write set and the (possibly
updated) source tree. -/
def build (compile : String → String) (src : ProjectSource) :
    List (String × String) × ProjectSource :=
  let c := buildCore compile src.core
  (c.1 ++ (src.plugins.map (buildPluginStandalone compile)).flatten,
   { core := c.2, plugins := src.plugins })

/-- C7: running build twice with no intervening source change is
idempotent: the second run performs exactly the writes of the first, so
every file of the resulting output tree holds exactly the same bytes after
the second run as after the first. -/
theorem C7_build_idempotent (compile : String → String) (src : ProjectSource)
    (fs : FileTree) (p : String) :
    (build compile (build compile src).2).1 = (build compile src).1 ∧
    lookupFile
        (applyWrites (applyWrites fs (build compile src).1)
          (build compile (build compile src).2).1) p
      = lookupFile (applyWrites fs (build compile src).1) p := by
  have hsame : (build compile (build compile src).2).1 = (build compile src).1 := by
    cases htoml : src.core.resourceToml with
    | some t => simp [build, buildCore, htoml]
    | none => simp [build, buildCore, htoml]
  refine ⟨hsame, ?_⟩
  rw [hsame]
  exact applyWrites_idem fs (build compile src).1 p

theorem core_mem_ensureCore (deps : List String) :
    "core" ∈ ensureCore deps := by
  rw [ensureCore]
  by_cases h : deps.contains "core" = true
  · rw [if_pos h]
    simpa using h
  · rw [if_neg h]
    simp

/-- The name/version/author/description extractions never touch the
dependencies field: it is the default ["core"] or the core-ensured declared
deps. -/
theorem extractMetadataBuild_dependencies (pluginName : String)
    (toml : Option String) :
    (extractMetadataBuild pluginName toml).dependencies
      = match toml with
        | none => ["core"]
        | some content =>
          match findField "deps".data true content.data with
          | some cap => ensureCore (splitDeps cap)
          | none => ["core"] := by
  cases toml with
  | none => rfl
  | some content =>
    rw [extractMetadataBuild]
    simp only []
    cases h1 : findField "name".data false content.data <;>
    cases h2 : findField "version".data false content.data <;>
    cases h3 : findField "author".data false content.data <;>
    cases h4 : findField "description".data false content.data <;>
    cases h5 : findField "deps".data true content.data <;>
    simp [h1, h2, h3, h4, h5]

/-- C8 counterexample: the hot-reload script's metadata extraction copies
the declared deps verbatim, so a manifest declaring deps = ["other"] yields
a metadata record whose dependencies do not contain core. -/
theorem C8_counterexample :
    "core" ∉ (extractMetadataHotReload "example"
      (some "deps = [\"other\"]")).dependencies ∧
    (extractMetadataHotReload "example"
      (some "deps = [\"other\"]")).dependencies = ["other"] := by
  refine ⟨by decide, by decide⟩

/-- C8 (amended): build.js's buildPlugin compiles server/index.ts to the
mirrored output path server/index.js inside the plugin's output directory
and writes a metadata.json whose dependencies always contain core (core is
added when the declared deps omit it); the hot-reload script's buildPlugin
copies the declared deps without adding core. -/
theorem C8_server_bundle_and_core_dep :
    (∀ (compile : String → String) (p : PluginSource)
        (files : List (String × String)) (c : String),
      p.server = some files → ("index.ts", c) ∈ files →
      ("resources/main/core/plugins/" ++ p.name ++ "/" ++ "server/" ++
          "index.js", compile c) ∈ buildPluginEmbedded compile p) ∧
    (∀ (pluginName : String) (toml : Option String),
      "core" ∈ (extractMetadataBuild pluginName toml).dependencies) ∧
    (∀ (compile : String → String) (p : PluginSource),
      ("resources/main/core/plugins/" ++ p.name ++ "/" ++ "metadata.json",
        jsonOfBuildMetadata (extractMetadataBuild p.name p.resourceToml))
        ∈ buildPluginEmbedded compile p) := by
  refine ⟨?_, ?_, ?_⟩
  · intro compile p files c hserver hmem
    rw [buildPluginEmbedded, hserver]
    simp only [List.mem_append]
    refine Or.inl (Or.inl (Or.inl (Or.inl ?_)))
    rw [compileWrites]
    have hpred : (hasExt "index.ts" ".ts" && !(hasExt "index.ts" ".d.ts"))
        = true := by decide
    have hts : ("index.ts", c) ∈ tsEntries files := by
      rw [tsEntries]
      exact List.mem_filter.mpr ⟨hmem, hpred⟩
    have hmap := List.mem_map_of_mem
      (fun f : String × String =>
        ("resources/main/core/plugins/" ++ p.name ++ "/" ++ "server/"
          ++ tsToJs f.1, compile f.2)) hts
    have hjs : tsToJs "index.ts" = "index.js" := by decide
    rw [show (fun f : String × String =>
        ("resources/main/core/plugins/" ++ p.name ++ "/" ++ "server/"
          ++ tsToJs f.1, compile f.2)) ("index.ts", c)
      = ("resources/main/core/plugins/" ++ p.name ++ "/" ++ "server/"
          ++ tsToJs "index.ts", compile c) from rfl, hjs] at hmap
    exact hmap
  · intro pluginName toml
    rw [extractMetadataBuild_dependencies]
    cases toml with
    | none => simp
    | some content =>
      cases h5 : findField "deps".data true content.data with
      | none => simp [h5]
      | some cap =>
        simp only [h5]
        exact core_mem_ensureCore (splitDeps cap)
  · intro compile p
    rw [buildPluginEmbedded]
    simp

/-- Witness for C8: plugin example with server/index.ts and a manifest
declaring deps = ["other"] (core omitted). -/
theorem C8_witness :
    ("resources/main/core/plugins/" ++ "example" ++ "/" ++ "server/" ++
        "index.js", (fun s : String => s) "code") ∈
      buildPluginEmbedded (fun s => s)
        (PluginSource.mk "example" (some [("index.ts", "code")]) none none
          (some "deps = [\"other\"]")) ∧
    "core" ∈ (extractMetadataBuild "example"
      (some "deps = [\"other\"]")).dependencies :=
  ⟨C8_server_bundle_and_core_dep.1 (fun s => s)
      (PluginSource.mk "example" (some [("index.ts", "code")]) none none
        (some "deps = [\"other\"]"))
      [("index.ts", "code")] "code" rfl (by simp) ,
   C8_server_bundle_and_core_dep.2.1 "example" (some "deps = [\"other\"]")⟩

end AltDragon
